import Mathlib

/-!
Verification of the pull-request aggregation and enrichment pipeline of the
`pull-request-app` repository (`AzureDevOpsService` in
`azure-devops.service.ts`, `PullRequestsComponent` in
`pull-requests.component.ts`, and `PullRequestCardComponent` in
`pull-request-card.component.ts`), as a shallow embedding in Lean.

Modelling conventions:
* TypeScript optional fields (`x?: T`, i.e. possibly `undefined`) become
  `Option T`; `undefined` is `none`.
* An RxJS observable produced by one HTTP call either errors with an HTTP
  error or emits exactly one value; it is modelled as `Except HttpError α`
  (`Obs α`).  `catchError` is `catchWith`; `of v` is `Except.ok v`.
* `handleHttpError` in the source emits one message on `authErrorSubject`
  and resolves with the empty object `{}`.  The empty object, read at a
  result type whose fields are all optional, is the record with every
  field `none`.  The model returns the list of emitted messages alongside
  the resolved observable so that emission counts are visible.
* A thrown JavaScript `TypeError` (reading a property of `undefined`)
  inside an observable `map` is modelled with `Except Unit`: the merge
  step of the enricher returns `Except.error ()` exactly where the source
  would throw, and the enclosing `catchError` turns that into the default
  record, just as in the source.
-/

namespace PRApp

/-- `createdBy` identity on the wire type (`displayName` + `uniqueName`;
the avatar link is never read by the modelled code and is omitted). -/
structure CreatedBy where
  displayName : String
  uniqueName : String
deriving DecidableEq, Repr

/-- `repository` object nested in a pull request (`pr.repository.name`). -/
structure RepositoryRef where
  name : String
deriving DecidableEq, Repr

/-- `PullRequestComment` from `azure-devops.service.ts`. -/
structure PullRequestComment where
  id : Nat
  content : String
  commentType : String
  author : CreatedBy
  publishedDate : String
  isDeleted : Bool
deriving DecidableEq, Repr

/-- `PullRequestThread` from `azure-devops.service.ts`. -/
structure PullRequestThread where
  id : Nat
  status : String
  comments : List PullRequestComment
  isDeleted : Bool
deriving DecidableEq, Repr

/-- `definition` object of a `BuildResult`. -/
structure BuildDefinition where
  name : String
  id : Nat
deriving DecidableEq, Repr

/-- `BuildResult` from `azure-devops.service.ts`. -/
structure BuildResult where
  id : Nat
  buildNumber : String
  status : String
  result : Option String
  definition : BuildDefinition
  startTime : Option String
  finishTime : Option String
  sourceBranch : String
deriving DecidableEq, Repr

/-- `PullRequest` from `azure-devops.service.ts`: the wire fields plus the
optional enrichment fields (absent on the wire, attached by the service). -/
structure PullRequest where
  pullRequestId : Nat
  title : String
  description : String
  status : String
  createdBy : CreatedBy
  creationDate : String
  sourceRefName : String
  targetRefName : String
  repository : RepositoryRef
  projectName : Option String := none
  threads : Option (List PullRequestThread) := none
  commentCount : Option Nat := none
  unresolvedCommentCount : Option Nat := none
  mergeStatus : Option String := none
  isDraft : Option Bool := none
  builds : Option (List BuildResult) := none
  hasConflicts : Option Bool := none
  canMerge : Option Bool := none
deriving DecidableEq, Repr

/-- `PullRequestResponse` (`{value, count}`).  Both fields are optional so
that the empty object `{}` produced by `handleHttpError` is representable
(`value := none, count := none`). -/
structure PullRequestResponse where
  value : Option (List PullRequest)
  count : Option Nat
deriving DecidableEq, Repr

/-- `ProjectConfig` from `azure-devops.config.ts`: a selector
`{name, repository?}`. -/
structure ProjectConfig where
  name : String
  repository : Option String
deriving DecidableEq, Repr

/-- One element of the `/statuses` response used by
`getPullRequestBuildsFromTimeline`: `context` may be `null`/absent, and its
`name`, the `state`, and the date fields may each be absent. -/
structure StatusContext where
  genre : String
  name : Option String
deriving DecidableEq, Repr

structure StatusEvent where
  id : String
  context : Option StatusContext
  state : Option String
  creationDate : Option String
  updatedDate : Option String
deriving DecidableEq, Repr

/-- Result of `getPullRequestMergeStatus` (the pull-request detail call):
only the two fields the service reads.  On the wire either may be absent;
the empty object `{}` is `⟨none, none⟩`. -/
structure PullRequestDetail where
  mergeStatus : Option String
  isDraft : Option Bool
deriving DecidableEq, Repr

/-- An HTTP error as seen by `handleHttpError`: `status` is `none` when the
error object has no numeric status (network failure), mirroring the
source's `!error.status` test; `some 0` is the other "no status" case. -/
structure HttpError where
  status : Option Nat
deriving DecidableEq, Repr

/-- One HTTP-backed observable: errors with an `HttpError` or emits one
value. -/
abbrev Obs (α : Type) := Except HttpError α

/-- RxJS `catchError`: pass a success through, hand an error to the
handler. -/
def catchWith {α : Type} (o : Obs α) (h : HttpError → Obs α) : Obs α :=
  match o with
  | .ok a => a |> Except.ok
  | .error e => h e

/-- The four messages of `handleHttpError`, verbatim from the source. -/
def authInvalidMsg : String :=
  "Authentication failed. Your Personal Access Token may be invalid or expired. Please provide a valid PAT."

def authForbiddenMsg : String :=
  "Access forbidden. Your Personal Access Token may not have the required permissions. Please provide a valid PAT with proper scopes."

def networkErrorMsg : String :=
  "Network error occurred. Please check your connection and Personal Access Token configuration."

def genericErrorMsg (status : Nat) : String :=
  "Error occurred while fetching data (" ++ toString status ++ "). Please verify your Personal Access Token and configuration."

/-- The classification chain of `handleHttpError`: `401`, then `403`, then
`status === 0 || !status`, then the generic message carrying the status. -/
def classifyHttpError (e : HttpError) : String :=
  if e.status = some 401 then authInvalidMsg
  else if e.status = some 403 then authForbiddenMsg
  else if e.status = some 0 ∨ e.status = none then networkErrorMsg
  else genericErrorMsg (e.status.getD 0)

/-- `handleHttpError<T>(operation)` applied to an error: it emits exactly
one classified message on `authErrorSubject` and resolves with
`of({} as T)`; the caller supplies the reading of `{}` at the result type
(`emptyT`).  The first component lists the emitted messages. -/
def handleHttpError {α : Type} (emptyT : α) (e : HttpError) : List String × Obs α :=
  ([classifyHttpError e], Except.ok emptyT)

/-- A `{value: T[]}` response; `handleHttpError`'s `{}` is `⟨none⟩`. -/
structure ValueResp (α : Type) where
  value : Option (List α)
deriving DecidableEq, Repr

/-- JavaScript `parseInt(s) || 0`: the leading decimal digits of `s`, and
`0` when there are none (`parseInt` gives `NaN`, which `|| 0` replaces). -/
def jsParseIntOrZero (s : String) : Nat :=
  ((s.takeWhile Char.isDigit).toNat?).getD 0

/-- JavaScript `o || d` for an optional string: `d` when `o` is absent or
the empty string (both falsy). -/
def jsOrString (o : Option String) (d : String) : String :=
  match o with
  | some s => if s = "" then d else s
  | none => d

/-- `mapStatusToBuildStatus`: `state?.toLowerCase()` switched to the
normalized build status (`undefined` falls to the `default` branch). -/
def mapStatusToBuildStatus (state : Option String) : String :=
  match state.map String.toLower with
  | some "succeeded" => "completed"
  | some "failed" => "completed"
  | some "error" => "completed"
  | some "pending" => "inProgress"
  | some "notset" => "notStarted"
  | _ => "notStarted"

/-- `mapStatusToBuildResult`. -/
def mapStatusToBuildResult (state : Option String) : Option String :=
  match state.map String.toLower with
  | some "succeeded" => some "succeeded"
  | some "failed" => some "failed"
  | some "error" => some "failed"
  | _ => none

/-- The per-status record built inside `getPullRequestBuildsFromTimeline`:
`parseInt(status.id) || 0`, `status.context?.name || "Unknown"`, the two
state mappings, and the two dates. -/
def buildFromStatus (s : StatusEvent) : BuildResult :=
  { id := jsParseIntOrZero s.id
    buildNumber := jsOrString (s.context.bind StatusContext.name) "Unknown"
    status := mapStatusToBuildStatus s.state
    result := mapStatusToBuildResult s.state
    definition :=
      { name := jsOrString (s.context.bind StatusContext.name) "Unknown Build"
        id := jsParseIntOrZero s.id }
    startTime := s.creationDate
    finishTime := s.updatedDate
    sourceBranch := "" }

/-- The body of `getPullRequestBuildsFromTimeline`'s `map`: keep statuses
whose `context` exists with genre `"continuous-integration"`, then map
them to `BuildResult`-shaped records. -/
def buildsFromStatuses (evs : List StatusEvent) : List BuildResult :=
  (evs.filter fun s =>
    match s.context with
    | some c => c.genre == "continuous-integration"
    | none => false).map buildFromStatus

/-- `s.replace("refs/heads/", "")`.  (JS `replace` with a string pattern
replaces the first occurrence; for branch refs, which contain the pattern
at most once at the front, this agrees with replacing every occurrence.) -/
def stripRefsHeads (s : String) : String :=
  s.replace "refs/heads/" ""

/-- The upstream REST surface: what each raw HTTP request would produce.
Keys are exactly the parameters the service puts in each URL. -/
structure RemoteEnv where
  rawProject : String → Obs (List PullRequest)
  rawRepo : String → String → Obs (List PullRequest)
  threads : String → String → Nat → Obs (List PullRequestThread)
  statuses : String → String → Nat → Obs (List StatusEvent)
  buildsByBranch : String → String → String → Obs (List BuildResult)
  detail : String → String → Nat → Obs PullRequestDetail

/-- `getPullRequestThreads`: the raw call with `handleHttpError` attached
(on failure it resolves with `{}`, whose `value` is absent). -/
def getPullRequestThreads (env : RemoteEnv) (project repositoryId : String)
    (pullRequestId : Nat) : Obs (ValueResp PullRequestThread) :=
  catchWith
    (Except.map (fun l => ⟨some l⟩) (env.threads project repositoryId pullRequestId))
    (fun e => (handleHttpError (⟨none⟩ : ValueResp PullRequestThread) e).2)

/-- `getPullRequestBuildsFromTimeline`: fetch `/statuses`, map them to
builds, and absorb any failure via `handleHttpError` (resolving `{}`). -/
def getPullRequestBuildsFromTimeline (env : RemoteEnv) (project repositoryId : String)
    (pullRequestId : Nat) : Obs (ValueResp BuildResult) :=
  catchWith
    (Except.map (fun evs => ⟨some (buildsFromStatuses evs)⟩)
      (env.statuses project repositoryId pullRequestId))
    (fun e => (handleHttpError (⟨none⟩ : ValueResp BuildResult) e).2)

/-- `getPullRequestBuilds` (builds by source branch).  The source computes
`branchName = sourceRefName.replace("refs/heads/", "")` but only logs it:
the query URL carries `encodeURIComponent(sourceRefName)` unstripped, so
the environment is keyed by the full `sourceRefName`. -/
def getPullRequestBuilds (env : RemoteEnv) (project repositoryId sourceRefName : String) :
    Obs (ValueResp BuildResult) :=
  catchWith
    (Except.map (fun l => ⟨some l⟩) (env.buildsByBranch project repositoryId sourceRefName))
    (fun e => (handleHttpError (⟨none⟩ : ValueResp BuildResult) e).2)

/-- `getPullRequestMergeStatus`: the pull-request detail call with
`handleHttpError` attached (failure resolves with `{}` = `⟨none, none⟩`). -/
def getPullRequestMergeStatus (env : RemoteEnv) (project repositoryId : String)
    (pullRequestId : Nat) : Obs PullRequestDetail :=
  catchWith (env.detail project repositoryId pullRequestId)
    (fun e => (handleHttpError (⟨none, none⟩ : PullRequestDetail) e).2)

/-- The enricher's build-discovery request: the timeline-derived call with
`catchError(() => this.getPullRequestBuilds(project, repositoryId,
pr.sourceRefName))` piped on. -/
def enricherBuildsReq (env : RemoteEnv) (project repositoryId : String)
    (pr : PullRequest) : Obs (ValueResp BuildResult) :=
  catchWith (getPullRequestBuildsFromTimeline env project repositoryId pr.pullRequestId)
    (fun _ => getPullRequestBuilds env project repositoryId pr.sourceRefName)

/-- RxJS `forkJoin` of the three enrichment requests: emits the triple of
results, or errors as soon as any source errors. -/
def forkJoin3 {α β γ : Type} (a : Obs α) (b : Obs β) (c : Obs γ) : Obs (α × β × γ) := do
  let x ← a
  let y ← b
  let z ← c
  return (x, y, z)

/-- RxJS `forkJoin` of a list of observables: emits the list of results,
or errors if any source errors.  (The source never applies it to an empty
array; both call sites guard the empty case first.) -/
def forkJoinAll {α : Type} : List (Obs α) → Obs (List α)
  | [] => Except.ok []
  | o :: rest => do
      let v ← o
      let vs ← forkJoinAll rest
      return (v :: vs)

/-- `commentCount`: `threads.value.reduce((count, thread) => count +
thread.comments.filter(c => !c.isDeleted && c.commentType !==
"system").length, 0)`.  Note that deleted threads are not excluded. -/
def commentCountOf (threads : List PullRequestThread) : Nat :=
  threads.foldl
    (fun count thread =>
      count + (thread.comments.filter fun c => !c.isDeleted && c.commentType != "system").length)
    0

/-- `unresolvedCommentCount`: `threads.value.filter(thread =>
!thread.isDeleted && thread.status === "active").length`. -/
def unresolvedCountOf (threads : List PullRequestThread) : Nat :=
  (threads.filter fun thread => !thread.isDeleted && thread.status == "active").length

/-- The full-default substitution record from the enricher's
`catchError`. -/
def defaultEnriched (pr : PullRequest) : PullRequest :=
  { pr with
    threads := some []
    builds := some []
    commentCount := some 0
    unresolvedCommentCount := some 0
    mergeStatus := some "unknown"
    isDraft := some false
    hasConflicts := some false
    canMerge := some false }

/-- The `map` body joining the three enrichment results.  Field by field
as in the source; the one place the JavaScript can throw is
`threads.value.reduce(...)` when `threads` is the `{}` produced by
`handleHttpError` (reading `.reduce` of `undefined`), modelled by
`Except.error ()`.  `builds.value` and `mergeStatus.mergeStatus` /
`mergeStatus.isDraft` read `undefined` without throwing, and
`undefined === "conflicts"` / `undefined === "succeeded"` are `false`. -/
def enrichMergeBody (pr : PullRequest) (threads : ValueResp PullRequestThread)
    (builds : ValueResp BuildResult) (detail : PullRequestDetail) :
    Except Unit PullRequest :=
  match threads.value with
  | none => Except.error ()
  | some ts =>
      Except.ok { pr with
        threads := some ts
        builds := builds.value
        commentCount := some (commentCountOf ts)
        unresolvedCommentCount := some (unresolvedCountOf ts)
        mergeStatus := detail.mergeStatus
        isDraft := detail.isDraft
        hasConflicts := some (detail.mergeStatus == some "conflicts")
        canMerge := some (detail.mergeStatus == some "succeeded") }

/-- The per-pull-request enrichment pipeline shared by
`getActivePullRequestsFromProjectWithThreads` (where `repositoryId` is
`pr.repository.name`) and `getActivePullRequestsByRepoWithThreads` (where
it is the selector's repository): `forkJoin({threads, builds,
mergeStatus})` followed by the merge `map` with its `catchError`
substituting the full default record.  The three guarded requests never
error, so the per-PR observable always emits one pull request. -/
def enrichPullRequest (env : RemoteEnv) (project repositoryId : String)
    (pr : PullRequest) : PullRequest :=
  let threadsReq := getPullRequestThreads env project repositoryId pr.pullRequestId
  let buildsReq := enricherBuildsReq env project repositoryId pr
  let mergeStatusReq := getPullRequestMergeStatus env project repositoryId pr.pullRequestId
  match forkJoin3 threadsReq buildsReq mergeStatusReq with
  | .error _ => defaultEnriched pr
  | .ok (threads, builds, detail) =>
      match enrichMergeBody pr threads builds detail with
      | .ok enriched => enriched
      | .error _ => defaultEnriched pr

/-- `getActivePullRequestsFromProject`: the raw project-wide page with
`handleHttpError` attached (failure resolves with `{}`). -/
def getActivePullRequestsFromProject (env : RemoteEnv) (project : String) :
    Obs PullRequestResponse :=
  catchWith
    (Except.map (fun l => { value := some l, count := some l.length })
      (env.rawProject project))
    (fun e => (handleHttpError (⟨none, none⟩ : PullRequestResponse) e).2)

/-- `getActivePullRequestsByRepo`: the raw repository-scoped page with
`handleHttpError` attached. -/
def getActivePullRequestsByRepo (env : RemoteEnv) (project repositoryId : String) :
    Obs PullRequestResponse :=
  catchWith
    (Except.map (fun l => { value := some l, count := some l.length })
      (env.rawRepo project repositoryId))
    (fun e => (handleHttpError (⟨none, none⟩ : PullRequestResponse) e).2)

/-- The `switchMap` body shared by the two `...WithThreads` methods: an
absent or empty `value` short-circuits to `{value: [], count: 0}`;
otherwise every raw pull request is enriched (each per-PR observable never
errors, so `forkJoin(threadRequests)` emits the mapped list). -/
def withThreadsBody (env : RemoteEnv) (project : String)
    (repositoryIdOf : PullRequest → String) (response : PullRequestResponse) :
    Obs PullRequestResponse :=
  match response.value with
  | none => Except.ok { value := some [], count := some 0 }
  | some prs =>
      if prs.length = 0 then Except.ok { value := some [], count := some 0 }
      else
        let prsWithThreads :=
          prs.map fun pr => enrichPullRequest env project (repositoryIdOf pr) pr
        Except.ok { value := some prsWithThreads, count := some prsWithThreads.length }

/-- `getActivePullRequestsFromProjectWithThreads`. -/
def getActivePullRequestsFromProjectWithThreads (env : RemoteEnv) (project : String) :
    Obs PullRequestResponse :=
  (getActivePullRequestsFromProject env project).bind
    (withThreadsBody env project (fun pr => pr.repository.name))

/-- `getActivePullRequestsByRepoWithThreads`. -/
def getActivePullRequestsByRepoWithThreads (env : RemoteEnv)
    (project repositoryId : String) : Obs PullRequestResponse :=
  (getActivePullRequestsByRepo env project repositoryId).bind
    (withThreadsBody env project (fun _ => repositoryId))

/-- The per-selector request chosen inside `getActivePullRequests`: an
invalid config (falsy `name`) yields `of({value: [], count: 0})`; a truthy
`repository` selects the repository-scoped fetch; otherwise the
project-wide fetch. -/
def requestForSelector (env : RemoteEnv) (cfg : ProjectConfig) :
    Obs PullRequestResponse :=
  if cfg.name = "" then Except.ok { value := some [], count := some 0 }
  else
    match cfg.repository with
    | some repo =>
        if repo = "" then getActivePullRequestsFromProjectWithThreads env cfg.name
        else getActivePullRequestsByRepoWithThreads env cfg.name repo
    | none => getActivePullRequestsFromProjectWithThreads env cfg.name

/-- The combining `map` of `getActivePullRequests`: walk the responses in
selector order, skip a response whose `value` is absent, stamp every pull
request of a kept response with the selector's `name` as `projectName`,
and concatenate. -/
def combineResponses (pairs : List (ProjectConfig × PullRequestResponse)) :
    List PullRequest :=
  pairs.foldl
    (fun acc pair =>
      match pair.2.value with
      | none => acc
      | some prs => acc ++ prs.map fun pr => { pr with projectName := some pair.1.name })
    []

/-- `getActivePullRequests` (the Aggregator): empty selector list returns
`of({value: [], count: 0})`; otherwise `forkJoin` over the per-selector
requests, combined and counted, with a final `handleHttpError` (which can
never fire, as every per-selector request resolves). -/
def getActivePullRequests (env : RemoteEnv) (projects : List ProjectConfig) :
    Obs PullRequestResponse :=
  if projects.length = 0 then Except.ok { value := some [], count := some 0 }
  else
    catchWith
      (Except.map
        (fun responses =>
          let allPullRequests := combineResponses (projects.zip responses)
          { value := some allPullRequests, count := some allPullRequests.length })
        (forkJoinAll (projects.map (requestForSelector env))))
      (fun e => (handleHttpError (⟨none, none⟩ : PullRequestResponse) e).2)

/-! ## View filter and auto-pin seeding (`pull-requests.component.ts`) -/

/-- `getUniqueAuthors` builds a JS `Set` of `createdBy.displayName` values
and returns it sorted as an array; the seeding logic consumes it only as a
set, so the model keeps the `Finset` of display names. -/
def uniqueAuthors (prs : List PullRequest) : Finset String :=
  (prs.map fun pr => pr.createdBy.displayName).toFinset

/-- `applyAutomaticPinnedAuthorFilters`, as a function of the component
state it reads (`pullRequests`, `pinnedAuthors`, `selectedAuthors`),
returning the new `selectedAuthors`: when some pinned author has a pull
request in the fresh collection and nothing is selected yet, every such
author is added to the selection; otherwise the selection is untouched. -/
def applyAutomaticPinnedAuthorFilters (prs : List PullRequest)
    (pinnedAuthors selectedAuthors : Finset String) : Finset String :=
  let currentAuthors := uniqueAuthors prs
  let activePinnedAuthors := currentAuthors.filter fun author => author ∈ pinnedAuthors
  if 0 < activePinnedAuthors.card ∧ selectedAuthors.card = 0 then
    selectedAuthors ∪ activePinnedAuthors
  else selectedAuthors

/-- The component's filter state read by `applyFilters`. -/
structure FilterState where
  showDrafts : Bool
  selectedRepositories : Finset String
  selectedAuthors : Finset String

/-- `applyFilters`: drop drafts unless `showDrafts` (JS `!pr.isDraft` is
true for `false` and for `undefined`), then keep selected repositories
when any are selected, then keep selected authors when any are
selected. -/
def applyFilters (st : FilterState) (pullRequests : List PullRequest) :
    List PullRequest :=
  let filtered := pullRequests
  let filtered :=
    if !st.showDrafts then filtered.filter (fun pr => !(pr.isDraft == some true))
    else filtered
  let filtered :=
    if 0 < st.selectedRepositories.card then
      filtered.filter fun pr => decide (pr.repository.name ∈ st.selectedRepositories)
    else filtered
  let filtered :=
    if 0 < st.selectedAuthors.card then
      filtered.filter fun pr => decide (pr.createdBy.displayName ∈ st.selectedAuthors)
    else filtered
  filtered

/-! ## Relatedness scoring (`pull-request-card.component.ts`) -/

/-- The significant words of a title: lowercase, split at whitespace, keep
words longer than 3 characters.  (JS `split(/\s+/)` collapses whitespace
runs where `String.split` yields empty pieces; the length filter removes
those, so the word lists agree.) -/
def significantWords (title : String) : List String :=
  (title.toLower.split Char.isWhitespace).filter fun word => 3 < word.length

/-- The shared-title test of `getRelatedPullRequests`: at least three
common significant words, and at least three significant words in the
current title (`commonWords.length >= 3 && currentWords.length >= 3`). -/
def sharedTitleBonus (currentTitle otherTitle : String) : Bool :=
  let currentWords := significantWords currentTitle
  let otherWords := significantWords otherTitle
  let commonWords := currentWords.filter fun word => otherWords.contains word
  decide (3 ≤ commonWords.length) && decide (3 ≤ currentWords.length)

/-- The score `getRelatedPullRequests` assigns to one other pull request:
the three mutually exclusive base cases (same repository and author 50,
same repository 15, same author 10) plus 20 for the shared-title test. -/
def relatednessScore (currentPr otherPr : PullRequest) : Nat :=
  let base :=
    if currentPr.repository.name = otherPr.repository.name ∧
        currentPr.createdBy.uniqueName = otherPr.createdBy.uniqueName then 50
    else if currentPr.repository.name = otherPr.repository.name then 15
    else if currentPr.createdBy.uniqueName = otherPr.createdBy.uniqueName then 10
    else 0
  base + (if sharedTitleBonus currentPr.title otherPr.title then 20 else 0)

/-- The candidate list built by the `forEach` of `getRelatedPullRequests`:
other pull requests (different `pullRequestId`) whose score reaches the
threshold 30, each paired with its score, in input order. -/
def relatedCandidates (currentPr : PullRequest) (allPullRequests : List PullRequest) :
    List (PullRequest × Nat) :=
  allPullRequests.filterMap fun otherPr =>
    if otherPr.pullRequestId = currentPr.pullRequestId then none
    else
      let score := relatednessScore currentPr otherPr
      if 30 ≤ score then some (otherPr, score) else none

/-- `getRelatedPullRequests`: empty input or no candidate gives `[]`;
otherwise the candidates are sorted by the comparator
`(a, b) => b.score - a.score` (descending) and the first is returned. -/
def getRelatedPullRequests (pr : PullRequest) (allPullRequests : List PullRequest) :
    List PullRequest :=
  if allPullRequests.length = 0 then []
  else
    let candidates := relatedCandidates pr allPullRequests
    if candidates.length = 0 then []
    else
      match candidates.mergeSort (fun x y => decide (y.2 ≤ x.2)) with
      | [] => []
      | c :: _ => [c.1]

/-! ## Derived views of the pipeline, used to state its properties -/

/-- The raw page request a selector leads to (project-wide unless a truthy
`repository` is configured), before enrichment. -/
def rawFetchFor (env : RemoteEnv) (cfg : ProjectConfig) : Obs (List PullRequest) :=
  match cfg.repository with
  | some repo => if repo = "" then env.rawProject cfg.name else env.rawRepo cfg.name repo
  | none => env.rawProject cfg.name

/-- The number of raw pull requests a selector's page fetch yields (`0` on
failure). -/
def rawCountFor (env : RemoteEnv) (cfg : ProjectConfig) : Nat :=
  match rawFetchFor env cfg with
  | .ok l => l.length
  | .error _ => 0

/-- The repository id the enricher receives for one pull request of a
selector: the configured repository when truthy, else the pull request's
own repository name. -/
def selectorRepoId (cfg : ProjectConfig) (pr : PullRequest) : String :=
  match cfg.repository with
  | some repo => if repo = "" then pr.repository.name else repo
  | none => pr.repository.name

/-- The enriched pull requests one selector contributes (before project
tagging): the raw page mapped through the enricher, `[]` on a failed
page fetch. -/
def selectorItems (env : RemoteEnv) (cfg : ProjectConfig) : List PullRequest :=
  match rawFetchFor env cfg with
  | .ok l => l.map fun pr => enrichPullRequest env cfg.name (selectorRepoId cfg pr) pr
  | .error _ => []

/-- The response a well-formed selector's request emits. -/
def selectorResponse (env : RemoteEnv) (cfg : ProjectConfig) : PullRequestResponse :=
  { value := some (selectorItems env cfg), count := some (rawCountFor env cfg) }

/-- The builds the timeline path contributes to an enriched pull request:
the mapped status list on success, `undefined` when the `/statuses`
call failed (its error is absorbed into `{}`). -/
def timelineBuildsOf (env : RemoteEnv) (project repositoryId : String)
    (pullRequestId : Nat) : Option (List BuildResult) :=
  match env.statuses project repositoryId pullRequestId with
  | .ok evs => some (buildsFromStatuses evs)
  | .error _ => none

/-- The detail record the enricher's merge step reads: the fetched detail
on success, the empty object on failure. -/
def detailValueOf (env : RemoteEnv) (project repositoryId : String)
    (pullRequestId : Nat) : PullRequestDetail :=
  match env.detail project repositoryId pullRequestId with
  | .ok d => d
  | .error _ => ⟨none, none⟩

/-- The pull request produced by the enricher when the threads call
succeeded with `ts`: raw fields kept, counts computed from `ts`, builds
and merge fields taken from the (failure-absorbed) other two calls. -/
def enrichedWithThreads (env : RemoteEnv) (project repositoryId : String)
    (pr : PullRequest) (ts : List PullRequestThread) : PullRequest :=
  { pr with
    threads := some ts
    builds := timelineBuildsOf env project repositoryId pr.pullRequestId
    commentCount := some (commentCountOf ts)
    unresolvedCommentCount := some (unresolvedCountOf ts)
    mergeStatus := (detailValueOf env project repositoryId pr.pullRequestId).mergeStatus
    isDraft := (detailValueOf env project repositoryId pr.pullRequestId).isDraft
    hasConflicts :=
      some ((detailValueOf env project repositoryId pr.pullRequestId).mergeStatus == some "conflicts")
    canMerge :=
      some ((detailValueOf env project repositoryId pr.pullRequestId).mergeStatus == some "succeeded") }

/-- The per-pull-request keep test that `applyFilters` amounts to: each
stage keeps a pull request when its filter is inactive or satisfied. -/
def keepPR (st : FilterState) (pr : PullRequest) : Bool :=
  (st.showDrafts || !(pr.isDraft == some true)) &&
  (decide (st.selectedRepositories.card = 0) ||
    decide (pr.repository.name ∈ st.selectedRepositories)) &&
  (decide (st.selectedAuthors.card = 0) ||
    decide (pr.createdBy.displayName ∈ st.selectedAuthors))

/-! ## Concrete fixtures for evaluating the pipeline -/

/-- A raw pull request as it arrives on the wire (no enrichment fields). -/
def rawPR (idn : Nat) (title repo author unique : String) : PullRequest :=
  { pullRequestId := idn
    title := title
    description := ""
    status := "active"
    createdBy := { displayName := author, uniqueName := unique }
    creationDate := "2025-01-01"
    sourceRefName := "refs/heads/feature"
    targetRefName := "refs/heads/main"
    repository := { name := repo } }

def fixPR1 : PullRequest := rawPR 1 "First change" "RepoA" "Alice" "alice@x"

def fixPR2 : PullRequest := rawPR 2 "Second change" "RepoB" "Bob" "bob@x"

/-- Another pull request in `RepoA` by Alice (same repository and author
as `fixPR1`, different id). -/
def fixPR3 : PullRequest := rawPR 3 "Other work" "RepoA" "Alice" "alice@x"

def fixThread : PullRequestThread :=
  { id := 11
    status := "active"
    comments :=
      [{ id := 21, content := "please fix", commentType := "text"
         author := { displayName := "Bob", uniqueName := "bob@x" }
         publishedDate := "2025-01-02", isDeleted := false }]
    isDeleted := false }

/-- An environment in which every call succeeds: one pull request in
project `ProjA` (project-wide) and one in repository `RepoB` of `ProjB`. -/
def happyEnv : RemoteEnv where
  rawProject := fun project => if project = "ProjA" then .ok [fixPR1] else .ok []
  rawRepo := fun _ repo => if repo = "RepoB" then .ok [fixPR2] else .ok []
  threads := fun _ _ _ => .ok [fixThread]
  statuses := fun _ _ _ => .ok []
  buildsByBranch := fun _ _ _ => .ok []
  detail := fun _ _ _ => .ok { mergeStatus := some "succeeded", isDraft := some false }

def happyProjects : List ProjectConfig :=
  [{ name := "ProjA", repository := none }, { name := "ProjB", repository := some "RepoB" }]

/-- An environment in which only the detail (merge-status) call fails. -/
def detailFailEnv : RemoteEnv where
  rawProject := fun _ => .ok [fixPR1]
  rawRepo := fun _ _ => .ok []
  threads := fun _ _ _ => .ok [fixThread]
  statuses := fun _ _ _ => .ok []
  buildsByBranch := fun _ _ _ => .ok []
  detail := fun _ _ _ => .error { status := some 500 }

/-- An environment in which only the threads call fails. -/
def threadsFailEnv : RemoteEnv where
  rawProject := fun _ => .ok [fixPR1]
  rawRepo := fun _ _ => .ok []
  threads := fun _ _ _ => .error { status := some 500 }
  statuses := fun _ _ _ => .ok []
  buildsByBranch := fun _ _ _ => .ok []
  detail := fun _ _ _ => .ok { mergeStatus := some "succeeded", isDraft := some false }

def fixBranchBuild : BuildResult :=
  { id := 7, buildNumber := "20250101.1", status := "completed", result := some "succeeded"
    definition := { name := "CI", id := 3 }, startTime := none, finishTime := none
    sourceBranch := "refs/heads/feature" }

/-- An environment in which the timeline (`/statuses`) call fails while
the builds-by-branch query would succeed with one build. -/
def timelineFailEnv : RemoteEnv where
  rawProject := fun _ => .ok [fixPR1]
  rawRepo := fun _ _ => .ok []
  threads := fun _ _ _ => .ok [fixThread]
  statuses := fun _ _ _ => .error { status := some 503 }
  buildsByBranch := fun _ _ _ => .ok [fixBranchBuild]
  detail := fun _ _ _ => .ok { mergeStatus := some "succeeded", isDraft := some false }

/-- A thread that is active and not deleted but contains no countable
comment. -/
def emptyActiveThread : PullRequestThread :=
  { id := 12, status := "active", comments := [], isDeleted := false }

/-- An environment whose threads call yields one active thread with no
comments (all other calls succeed). -/
def emptyActiveThreadEnv : RemoteEnv where
  rawProject := fun _ => .ok [fixPR1]
  rawRepo := fun _ _ => .ok []
  threads := fun _ _ _ => .ok [emptyActiveThread]
  statuses := fun _ _ _ => .ok []
  buildsByBranch := fun _ _ _ => .ok []
  detail := fun _ _ _ => .ok { mergeStatus := some "succeeded", isDraft := some false }

/-- The enriched, tagged pull request `happyEnv` produces for `fixPR1`. -/
def happyOut1 : PullRequest :=
  { fixPR1 with
    projectName := some "ProjA"
    threads := some [fixThread]
    builds := some []
    commentCount := some 1
    unresolvedCommentCount := some 1
    mergeStatus := some "succeeded"
    isDraft := some false
    hasConflicts := some false
    canMerge := some true }

/-- The enriched, tagged pull request `happyEnv` produces for `fixPR2`. -/
def happyOut2 : PullRequest :=
  { fixPR2 with
    projectName := some "ProjB"
    threads := some [fixThread]
    builds := some []
    commentCount := some 1
    unresolvedCommentCount := some 1
    mergeStatus := some "succeeded"
    isDraft := some false
    hasConflicts := some false
    canMerge := some true }

/-! ## Helper lemmas -/

theorem getPullRequestThreads_err {env : RemoteEnv} {project repositoryId : String}
    {pullRequestId : Nat} {e : HttpError}
    (h : env.threads project repositoryId pullRequestId = .error e) :
    getPullRequestThreads env project repositoryId pullRequestId = .ok ⟨none⟩ := by
  simp [getPullRequestThreads, h, catchWith, handleHttpError, Except.map]

theorem getPullRequestThreads_okv {env : RemoteEnv} {project repositoryId : String}
    {pullRequestId : Nat} {ts : List PullRequestThread}
    (h : env.threads project repositoryId pullRequestId = .ok ts) :
    getPullRequestThreads env project repositoryId pullRequestId = .ok ⟨some ts⟩ := by
  simp [getPullRequestThreads, h, catchWith, Except.map]

/-- The timeline call never errors: its own `handleHttpError` absorbs any
failure into the empty object, whose `value` is absent. -/
theorem getPullRequestBuildsFromTimeline_eq (env : RemoteEnv)
    (project repositoryId : String) (pullRequestId : Nat) :
    getPullRequestBuildsFromTimeline env project repositoryId pullRequestId =
      .ok ⟨timelineBuildsOf env project repositoryId pullRequestId⟩ := by
  unfold getPullRequestBuildsFromTimeline timelineBuildsOf
  cases env.statuses project repositoryId pullRequestId <;>
    simp [catchWith, handleHttpError, Except.map]

/-- Consequently the enricher's `catchError(() => getPullRequestBuilds(...))`
fallback never fires: the build request equals the timeline request and is
independent of the builds-by-branch endpoint. -/
theorem enricherBuildsReq_eq (env : RemoteEnv) (project repositoryId : String)
    (pr : PullRequest) :
    enricherBuildsReq env project repositoryId pr =
      .ok ⟨timelineBuildsOf env project repositoryId pr.pullRequestId⟩ := by
  unfold enricherBuildsReq
  rw [getPullRequestBuildsFromTimeline_eq]
  rfl

theorem getPullRequestMergeStatus_eq (env : RemoteEnv) (project repositoryId : String)
    (pullRequestId : Nat) :
    getPullRequestMergeStatus env project repositoryId pullRequestId =
      .ok (detailValueOf env project repositoryId pullRequestId) := by
  unfold getPullRequestMergeStatus detailValueOf
  cases env.detail project repositoryId pullRequestId <;>
    simp [catchWith, handleHttpError]

/-- Full characterization of the enricher: defaults exactly when the
threads call failed, otherwise `enrichedWithThreads`. -/
theorem enrichPullRequest_eq (env : RemoteEnv) (project repositoryId : String)
    (pr : PullRequest) :
    enrichPullRequest env project repositoryId pr =
      match env.threads project repositoryId pr.pullRequestId with
      | .error _ => defaultEnriched pr
      | .ok ts => enrichedWithThreads env project repositoryId pr ts := by
  unfold enrichPullRequest
  rw [enricherBuildsReq_eq, getPullRequestMergeStatus_eq]
  cases h : env.threads project repositoryId pr.pullRequestId with
  | error e =>
      rw [getPullRequestThreads_err h]
      rfl
  | ok ts =>
      rw [getPullRequestThreads_okv h]
      rfl

/-- The enricher never leaves `canMerge` and `hasConflicts` both true. -/
theorem enrichPullRequest_exclusive (env : RemoteEnv) (project repositoryId : String)
    (pr : PullRequest) :
    ¬((enrichPullRequest env project repositoryId pr).canMerge = some true ∧
      (enrichPullRequest env project repositoryId pr).hasConflicts = some true) := by
  rw [enrichPullRequest_eq]
  cases h : env.threads project repositoryId pr.pullRequestId with
  | error e => simp [defaultEnriched]
  | ok ts =>
      rintro ⟨hc, hh⟩
      simp only [enrichedWithThreads] at hc hh
      rw [Option.some_inj, beq_iff_eq] at hc hh
      rw [hc] at hh
      exact absurd hh (by decide)

theorem getActivePullRequestsFromProject_resolves (env : RemoteEnv) (project : String) :
    ∃ page, getActivePullRequestsFromProject env project = .ok page := by
  unfold getActivePullRequestsFromProject
  cases env.rawProject project <;>
    simp [catchWith, handleHttpError, Except.map]

theorem getActivePullRequestsByRepo_resolves (env : RemoteEnv)
    (project repositoryId : String) :
    ∃ page, getActivePullRequestsByRepo env project repositoryId = .ok page := by
  unfold getActivePullRequestsByRepo
  cases env.rawRepo project repositoryId <;>
    simp [catchWith, handleHttpError, Except.map]

/-- The `switchMap` body always resolves with a present `value` whose
elements are enricher outputs (and with `count` equal to its length). -/
theorem withThreadsBody_resolves (env : RemoteEnv) (project : String)
    (repositoryIdOf : PullRequest → String) (response : PullRequestResponse) :
    ∃ l, withThreadsBody env project repositoryIdOf response =
        Except.ok { value := some l, count := some l.length } ∧
      ∀ x ∈ l, ∃ pr0, x = enrichPullRequest env project (repositoryIdOf pr0) pr0 := by
  unfold withThreadsBody
  cases hv : response.value with
  | none => exact ⟨[], rfl, by simp⟩
  | some prs =>
      by_cases hlen : prs.length = 0
      · refine ⟨[], by simp [hlen], by simp⟩
      · refine ⟨prs.map fun pr => enrichPullRequest env project (repositoryIdOf pr) pr,
          by simp [hlen], ?_⟩
        intro x hx
        obtain ⟨pr0, _, hpr0⟩ := List.mem_map.mp hx
        exact ⟨pr0, hpr0.symm⟩

/-- Every selector's request resolves with a present `value` of enricher
outputs. -/
theorem requestForSelector_resolves (env : RemoteEnv) (cfg : ProjectConfig) :
    ∃ l, requestForSelector env cfg =
        Except.ok { value := some l, count := some l.length } ∧
      ∀ x ∈ l, ∃ project repositoryId pr0,
        x = enrichPullRequest env project repositoryId pr0 := by
  unfold requestForSelector
  by_cases hname : cfg.name = ""
  · exact ⟨[], by simp [hname], by simp⟩
  · have step : ∀ (obs : Obs PullRequestResponse) (project : String)
        (rf : PullRequest → String) (page : PullRequestResponse),
        obs = .ok page →
        ∃ l, obs.bind (withThreadsBody env project rf) =
            Except.ok { value := some l, count := some l.length } ∧
          ∀ x ∈ l, ∃ project' repositoryId pr0,
            x = enrichPullRequest env project' repositoryId pr0 := by
      intro obs project rf page hobs
      obtain ⟨l, hl, hmem⟩ := withThreadsBody_resolves env project rf page
      refine ⟨l, by rw [hobs]; exact hl, ?_⟩
      intro x hx
      obtain ⟨pr0, hpr0⟩ := hmem x hx
      exact ⟨project, rf pr0, pr0, hpr0⟩
    simp only [hname, if_false]
    cases hrep : cfg.repository with
    | none =>
        obtain ⟨page, hpage⟩ := getActivePullRequestsFromProject_resolves env cfg.name
        exact step _ cfg.name _ page hpage
    | some repo =>
        by_cases hrepo : repo = ""
        · simp only [hrepo, if_pos rfl]
          obtain ⟨page, hpage⟩ := getActivePullRequestsFromProject_resolves env cfg.name
          exact step _ cfg.name _ page hpage
        · simp only [if_neg hrepo]
          obtain ⟨page, hpage⟩ := getActivePullRequestsByRepo_resolves env cfg.name repo
          exact step _ cfg.name _ page hpage

theorem zip_self_map {α β : Type} (l : List α) (f : α → β) :
    l.zip (l.map f) = l.map fun a => (a, f a) := by
  induction l with
  | nil => rfl
  | cons a as ih => simp [ih]

theorem combineResponses_acc (pairs : List (ProjectConfig × PullRequestResponse))
    (acc : List PullRequest) :
    pairs.foldl
      (fun acc pair => match pair.2.value with
        | none => acc
        | some prs => acc ++ prs.map fun pr => { pr with projectName := some pair.1.name })
      acc
    = acc ++ combineResponses pairs := by
  induction pairs generalizing acc with
  | nil => simp [combineResponses]
  | cons p ps ih =>
      simp only [combineResponses, List.foldl_cons]
      rw [ih, ih]
      cases p.2.value <;> simp

/-- The combining fold is the concatenation of the per-selector tagged
groups, in selector order. -/
theorem combineResponses_eq_flatten (pairs : List (ProjectConfig × PullRequestResponse)) :
    combineResponses pairs =
      (pairs.map fun pair =>
        match pair.2.value with
        | none => []
        | some prs => prs.map fun pr => { pr with projectName := some pair.1.name }).flatten := by
  induction pairs with
  | nil => rfl
  | cons p ps ih =>
      have h1 : combineResponses (p :: ps) =
          (match p.2.value with
            | none => ([] : List PullRequest)
            | some prs => prs.map fun pr => { pr with projectName := some p.1.name })
          ++ combineResponses ps := by
        show (ps.foldl _ _ : List PullRequest) = _
        rw [combineResponses_acc]
        cases hpv : p.2.value <;> simp [hpv]
      rw [h1, ih, List.map_cons, List.flatten_cons]

theorem forkJoinAll_ok_mem {α : Type} :
    ∀ {l : List (Obs α)} {vs : List α},
      forkJoinAll l = Except.ok vs → ∀ v ∈ vs, Except.ok v ∈ l := by
  intro l
  induction l with
  | nil =>
      intro vs h v hv
      cases h
      cases hv
  | cons o rest ih =>
      intro vs h v hv
      cases o with
      | error e =>
          have h2 : (Except.error e : Obs (List α)) = Except.ok vs := h
          exact Except.noConfusion h2
      | ok a =>
          have h1 : (forkJoinAll rest >>= fun vs0 =>
              (Except.ok (a :: vs0) : Obs (List α))) = Except.ok vs := h
          cases hrest : forkJoinAll rest with
          | error e =>
              rw [hrest] at h1
              exact Except.noConfusion h1
          | ok vs' =>
              rw [hrest] at h1
              have h2 : (Except.ok (a :: vs') : Obs (List α)) = Except.ok vs := h1
              injection h2 with h2
              subst h2
              rcases List.mem_cons.mp hv with rfl | hv'
              · exact List.mem_cons_self _ _
              · exact List.mem_cons_of_mem _ (ih hrest v hv')

theorem forkJoinAll_map_ok {α β : Type} (f : β → Obs α) (g : β → α) :
    ∀ (l : List β), (∀ b ∈ l, f b = Except.ok (g b)) →
      forkJoinAll (l.map f) = Except.ok (l.map g) := by
  intro l
  induction l with
  | nil => intro _; rfl
  | cons b rest ih =>
      intro h
      show (f b >>= fun v => forkJoinAll (rest.map f) >>= fun vs =>
        (Except.ok (v :: vs) : Obs (List α))) = _
      rw [h b (List.mem_cons_self _ _), ih fun x hx => h x (List.mem_cons_of_mem _ hx)]
      rfl

theorem withThreadsBody_ok_value (env : RemoteEnv) (project : String)
    (repositoryIdOf : PullRequest → String) (l : List PullRequest) (cnt : Option Nat) :
    withThreadsBody env project repositoryIdOf { value := some l, count := cnt } =
      Except.ok
        { value := some (l.map fun pr => enrichPullRequest env project (repositoryIdOf pr) pr)
          count := some (l.map fun pr => enrichPullRequest env project (repositoryIdOf pr) pr).length } := by
  unfold withThreadsBody
  by_cases h : l.length = 0
  · have : l = [] := List.length_eq_zero.mp h
    subst this
    simp
  · simp [h]

/-- A well-formed selector whose raw page fetch succeeds emits exactly its
`selectorResponse`: the raw pull requests enriched (with the repository id
the code passes per variant) and the raw count. -/
theorem requestForSelector_ok (env : RemoteEnv) (cfg : ProjectConfig)
    (hname : cfg.name ≠ "") {l : List PullRequest}
    (hraw : rawFetchFor env cfg = .ok l) :
    requestForSelector env cfg = Except.ok (selectorResponse env cfg) ∧
    selectorItems env cfg =
      l.map (fun pr => enrichPullRequest env cfg.name (selectorRepoId cfg pr) pr) ∧
    rawCountFor env cfg = l.length := by
  have hitems : selectorItems env cfg =
      l.map fun pr => enrichPullRequest env cfg.name (selectorRepoId cfg pr) pr := by
    simp [selectorItems, hraw]
  have hcount : rawCountFor env cfg = l.length := by
    simp [rawCountFor, hraw]
  refine ⟨?_, hitems, hcount⟩
  unfold requestForSelector
  rw [if_neg hname]
  cases hrep : cfg.repository with
  | none =>
      have hraw' : env.rawProject cfg.name = .ok l := by
        unfold rawFetchFor at hraw
        rw [hrep] at hraw
        exact hraw
      unfold getActivePullRequestsFromProjectWithThreads getActivePullRequestsFromProject
      rw [hraw']
      show withThreadsBody env cfg.name _ { value := some l, count := some l.length } = _
      rw [withThreadsBody_ok_value]
      simp only [selectorResponse, hitems, hcount, List.length_map]
      congr 1
      simp [selectorRepoId, hrep]
  | some repo =>
      have hraw2 : (if repo = "" then env.rawProject cfg.name
          else env.rawRepo cfg.name repo) = Except.ok l := by
        unfold rawFetchFor at hraw
        rw [hrep] at hraw
        exact hraw
      show (if repo = "" then getActivePullRequestsFromProjectWithThreads env cfg.name
          else getActivePullRequestsByRepoWithThreads env cfg.name repo) = _
      by_cases hrepo : repo = ""
      · rw [if_pos hrepo] at hraw2
        rw [if_pos hrepo]
        unfold getActivePullRequestsFromProjectWithThreads getActivePullRequestsFromProject
        rw [hraw2]
        show withThreadsBody env cfg.name _ { value := some l, count := some l.length } = _
        rw [withThreadsBody_ok_value]
        simp only [selectorResponse, hitems, hcount, List.length_map]
        congr 1
        simp [selectorRepoId, hrep, hrepo]
      · rw [if_neg hrepo] at hraw2
        rw [if_neg hrepo]
        unfold getActivePullRequestsByRepoWithThreads getActivePullRequestsByRepo
        rw [hraw2]
        show withThreadsBody env cfg.name _ { value := some l, count := some l.length } = _
        rw [withThreadsBody_ok_value]
        simp only [selectorResponse, hitems, hcount, List.length_map]
        congr 1
        simp [selectorRepoId, hrep, hrepo]

theorem commentCountOf_eq_sum (ts : List PullRequestThread) :
    commentCountOf ts = (ts.map fun t =>
      (t.comments.filter fun c => !c.isDeleted && c.commentType != "system").length).sum := by
  suffices h : ∀ n : Nat, ts.foldl
      (fun count thread =>
        count + (thread.comments.filter fun c => !c.isDeleted && c.commentType != "system").length)
      n
      = n + (ts.map fun t =>
        (t.comments.filter fun c => !c.isDeleted && c.commentType != "system").length).sum by
    simpa [commentCountOf] using h 0
  induction ts with
  | nil => intro n; simp
  | cons t rest ih =>
      intro n
      rw [List.foldl_cons, ih, List.map_cons, List.sum_cons]
      omega

theorem commentCountOf_cons (t : PullRequestThread) (rest : List PullRequestThread) :
    commentCountOf (t :: rest) =
      (t.comments.filter fun c => !c.isDeleted && c.commentType != "system").length
        + commentCountOf rest := by
  rw [commentCountOf_eq_sum, commentCountOf_eq_sum, List.map_cons, List.sum_cons]

theorem unresolvedCountOf_cons (t : PullRequestThread) (rest : List PullRequestThread) :
    unresolvedCountOf (t :: rest) =
      (if (!t.isDeleted && t.status == "active") = true then 1 else 0)
        + unresolvedCountOf rest := by
  unfold unresolvedCountOf
  rw [List.filter_cons]
  by_cases hp : (!t.isDeleted && t.status == "active") = true
  · simp [hp, Nat.add_comm]
  · simp [hp]

/-- When every non-deleted active thread holds at least one countable
comment, the unresolved-thread count cannot exceed the comment count. -/
theorem unresolved_le_comment (ts : List PullRequestThread)
    (h : ∀ t ∈ ts, t.isDeleted = false → t.status = "active" →
      ∃ c ∈ t.comments, c.isDeleted = false ∧ c.commentType ≠ "system") :
    unresolvedCountOf ts ≤ commentCountOf ts := by
  induction ts with
  | nil => simp [unresolvedCountOf, commentCountOf]
  | cons t rest ih =>
      have hrest := ih fun x hx h1 h2 => h x (List.mem_cons_of_mem _ hx) h1 h2
      rw [unresolvedCountOf_cons, commentCountOf_cons]
      by_cases hp : (!t.isDeleted && t.status == "active") = true
      · have hp' : t.isDeleted = false ∧ t.status = "active" := by
          simpa using hp
        obtain ⟨c, hc, hcd, hct⟩ := h t (List.mem_cons_self _ _) hp'.1 hp'.2
        have hcmem : c ∈ t.comments.filter
            fun c => !c.isDeleted && c.commentType != "system" := by
          rw [List.mem_filter]
          exact ⟨hc, by simp [hcd, hct]⟩
        have hlen : 1 ≤ (t.comments.filter
            fun c => !c.isDeleted && c.commentType != "system").length :=
          List.length_pos.mpr (List.ne_nil_of_mem hcmem)
        rw [if_pos hp]
        omega
      · rw [if_neg hp]
        omega

theorem selectorItems_length (env : RemoteEnv) (cfg : ProjectConfig) :
    (selectorItems env cfg).length = rawCountFor env cfg := by
  unfold selectorItems rawCountFor
  cases rawFetchFor env cfg <;> simp

theorem forall₂_map_self {α β : Type} {P : α → β → Prop} (g : α → β) (l : List α)
    (h : ∀ a ∈ l, P a (g a)) : List.Forall₂ P l (l.map g) := by
  induction l with
  | nil => exact List.Forall₂.nil
  | cons a as ih =>
      exact List.Forall₂.cons (h a (List.mem_cons_self _ _))
        (ih fun x hx => h x (List.mem_cons_of_mem _ hx))

/-! ## Claim theorems -/

/-- **C1**: for every selector list in which every per-selector sub-fetch
succeeds (every selector has a truthy name and its raw page fetch
resolves), `getActivePullRequests` emits a response whose `count` is the
sum of the per-selector raw pull-request counts and whose `value` splits
into per-selector groups in which every pull request carries a non-empty
`projectName` equal to its originating selector's `name`. -/
theorem getActivePullRequests_aggregates (env : RemoteEnv) (projects : List ProjectConfig)
    (hname : ∀ cfg ∈ projects, cfg.name ≠ "")
    (hraw : ∀ cfg ∈ projects, ∃ l, rawFetchFor env cfg = Except.ok l) :
    ∃ resp : PullRequestResponse,
      getActivePullRequests env projects = Except.ok resp ∧
      resp.count = some ((projects.map (rawCountFor env)).sum) ∧
      ∃ groups : List (List PullRequest),
        resp.value = some groups.flatten ∧
        List.Forall₂
          (fun cfg group =>
            group.length = rawCountFor env cfg ∧
            ∀ pr ∈ group, pr.projectName = some cfg.name ∧ cfg.name ≠ "")
          projects groups := by
  by_cases hempty : projects.length = 0
  · have hnil : projects = [] := List.length_eq_zero.mp hempty
    subst hnil
    refine ⟨{ value := some [], count := some 0 }, ?_, by simp, [], by simp, List.Forall₂.nil⟩
    unfold getActivePullRequests
    simp
  · have hok : ∀ cfg ∈ projects,
        requestForSelector env cfg = Except.ok (selectorResponse env cfg) := by
      intro cfg hcfg
      obtain ⟨l, hl⟩ := hraw cfg hcfg
      exact (requestForSelector_ok env cfg (hname cfg hcfg) hl).1
    have hfj : forkJoinAll (projects.map (requestForSelector env)) =
        Except.ok (projects.map (selectorResponse env)) :=
      forkJoinAll_map_ok _ _ projects hok
    set groups : List (List PullRequest) :=
      projects.map fun cfg =>
        (selectorItems env cfg).map fun pr => { pr with projectName := some cfg.name }
      with hgroups
    have hcomb : combineResponses (projects.zip (projects.map (selectorResponse env))) =
        groups.flatten := by
      rw [zip_self_map, combineResponses_eq_flatten, List.map_map, hgroups]
      congr 1
    have hmain : getActivePullRequests env projects =
        Except.ok { value := some groups.flatten, count := some groups.flatten.length } := by
      unfold getActivePullRequests
      rw [if_neg hempty, hfj]
      simp only [catchWith, Except.map]
      rw [hcomb]
    have hlen : groups.flatten.length = (projects.map (rawCountFor env)).sum := by
      rw [List.length_flatten, hgroups, List.map_map]
      congr 1
      apply List.map_congr_left
      intro cfg _
      simp [Function.comp, selectorItems_length]
    refine ⟨_, hmain, by simp [hlen], groups, rfl, ?_⟩
    rw [hgroups]
    apply forall₂_map_self
    intro cfg hcfg
    refine ⟨by simp [selectorItems_length], ?_⟩
    intro pr hpr
    obtain ⟨pr0, _, hpr0⟩ := List.mem_map.mp hpr
    exact ⟨by rw [← hpr0], hname cfg hcfg⟩

/-- **C1 witness**: in the all-success environment with one project-wide
selector and one repository selector, the aggregate resolves and its count
is the sum of the raw counts. -/
theorem getActivePullRequests_aggregates_witness :
    ∃ resp : PullRequestResponse,
      getActivePullRequests happyEnv happyProjects = Except.ok resp ∧
      resp.count = some ((happyProjects.map (rawCountFor happyEnv)).sum) := by
  have hraw : ∀ cfg ∈ happyProjects, ∃ l, rawFetchFor happyEnv cfg = Except.ok l := by
    intro cfg hcfg
    rcases List.mem_cons.mp hcfg with rfl | h
    · exact ⟨[fixPR1], rfl⟩
    · rcases List.mem_cons.mp h with rfl | h
      · exact ⟨[fixPR2], rfl⟩
      · cases h
  obtain ⟨resp, h1, h2, _⟩ :=
    getActivePullRequests_aggregates happyEnv happyProjects (by decide) hraw
  exact ⟨resp, h1, h2⟩

/-- **C6**: every pull request in an aggregated collection has `canMerge`
and `hasConflicts` never both true (`canMerge` holds for mergeStatus
`"succeeded"`, `hasConflicts` for `"conflicts"`, and one string cannot be
both; the degraded default record sets both false). -/
theorem aggregated_merge_flags_exclusive (env : RemoteEnv)
    (projects : List ProjectConfig) (resp : PullRequestResponse)
    (l : List PullRequest) (pr : PullRequest)
    (hok : getActivePullRequests env projects = Except.ok resp)
    (hval : resp.value = some l) (hmem : pr ∈ l) :
    ¬(pr.canMerge = some true ∧ pr.hasConflicts = some true) := by
  unfold getActivePullRequests at hok
  by_cases hempty : projects.length = 0
  · rw [if_pos hempty] at hok
    injection hok with hok
    subst hok
    injection hval with hval
    subst hval
    cases hmem
  · rw [if_neg hempty] at hok
    cases hfj : forkJoinAll (projects.map (requestForSelector env)) with
    | error e =>
        rw [hfj] at hok
        have h2 : (Except.ok (⟨none, none⟩ : PullRequestResponse) :
            Obs PullRequestResponse) = Except.ok resp := hok
        injection h2 with h2
        subst h2
        exact Option.noConfusion hval
    | ok responses =>
        rw [hfj] at hok
        have h2 : (Except.ok
            ({ value := some (combineResponses (projects.zip responses))
               count := some (combineResponses (projects.zip responses)).length } :
              PullRequestResponse) : Obs PullRequestResponse) = Except.ok resp := hok
        injection h2 with h2
        subst h2
        injection hval with hval
        subst hval
        rw [combineResponses_eq_flatten] at hmem
        obtain ⟨grp, hgrp, hprg⟩ := List.mem_flatten.mp hmem
        obtain ⟨pair, hpair, hpairg⟩ := List.mem_map.mp hgrp
        cases hpv : pair.2.value with
        | none =>
            rw [hpv] at hpairg
            subst hpairg
            cases hprg
        | some prs =>
            rw [hpv] at hpairg
            subst hpairg
            obtain ⟨pr0, hpr0mem, hpr0⟩ := List.mem_map.mp hprg
            have hp2 : pair.2 ∈ responses := (List.of_mem_zip hpair).2
            have hokmem : Except.ok pair.2 ∈ projects.map (requestForSelector env) :=
              forkJoinAll_ok_mem hfj pair.2 hp2
            obtain ⟨cfg, hcfg, hreq⟩ := List.mem_map.mp hokmem
            obtain ⟨l', hl', hmem'⟩ := requestForSelector_resolves env cfg
            rw [hreq] at hl'
            injection hl' with hl'
            rw [hl'] at hpv
            injection hpv with hpv
            subst hpv
            obtain ⟨project', repoId', pr1, hpr1⟩ := hmem' pr0 hpr0mem
            subst hpr0
            rw [hpr1]
            exact enrichPullRequest_exclusive env project' repoId' pr1

/-- **C6 witness**: the mutual exclusion holds for a concrete member of a
concrete aggregate. -/
theorem aggregated_merge_flags_exclusive_witness :
    ¬(happyOut1.canMerge = some true ∧ happyOut1.hasConflicts = some true) :=
  aggregated_merge_flags_exclusive happyEnv happyProjects
    { value := some [happyOut1, happyOut2], count := some 2 }
    [happyOut1, happyOut2] happyOut1 (by rfl) rfl (List.mem_cons_self _ _)

/-- **C2 counterexample**: when only the detail (merge-status) sub-call
fails, the enricher does **not** substitute the full default record: the
real threads and counts are kept, and `mergeStatus` is left `undefined`
rather than `"unknown"`.  This refutes the claim that any one sub-call
failure yields the full default substitution. -/
theorem enricher_full_default_counterexample :
    (∃ e, detailFailEnv.detail "P" "R" fixPR1.pullRequestId = Except.error e) ∧
    enrichPullRequest detailFailEnv "P" "R" fixPR1 ≠ defaultEnriched fixPR1 ∧
    (enrichPullRequest detailFailEnv "P" "R" fixPR1).mergeStatus = none ∧
    (enrichPullRequest detailFailEnv "P" "R" fixPR1).commentCount = some 1 :=
  ⟨⟨⟨some 500⟩, rfl⟩, by decide, rfl, rfl⟩

/-- **C2** (amended): the enricher never fails outward, and it substitutes
the full default record exactly when the threads sub-call fails (only the
absent thread list makes the merge step throw).  When threads succeed it
keeps all raw fields, computes the counts from the threads, and takes
builds / mergeStatus / isDraft from the other two failure-absorbed calls,
leaving them `undefined` (never defaulted) on those calls' failures. -/
theorem enricher_failure_policy (env : RemoteEnv) (project repositoryId : String)
    (pr : PullRequest) :
    ((∃ e, env.threads project repositoryId pr.pullRequestId = Except.error e) →
      enrichPullRequest env project repositoryId pr = defaultEnriched pr) ∧
    (∀ ts, env.threads project repositoryId pr.pullRequestId = Except.ok ts →
      enrichPullRequest env project repositoryId pr =
        enrichedWithThreads env project repositoryId pr ts) := by
  constructor
  · rintro ⟨e, he⟩
    rw [enrichPullRequest_eq, he]
  · intro ts hts
    rw [enrichPullRequest_eq, hts]

/-- **C2 witness**: with a failing threads call the enricher yields the
full default record. -/
theorem enricher_failure_policy_witness :
    enrichPullRequest threadsFailEnv "P" "R" fixPR1 = defaultEnriched fixPR1 :=
  (enricher_failure_policy threadsFailEnv "P" "R" fixPR1).1 ⟨⟨some 500⟩, rfl⟩

/-- **C3 counterexample**: with a failing timeline (`/statuses`) call and
a builds-by-branch endpoint that would answer with one build, the
enriched pull request's `builds` is left `undefined`: the fallback result
is **not** used, refuting the claim that the builds-by-branch path runs
exactly when the timeline path fails. -/
theorem builds_fallback_counterexample :
    (∃ e, timelineFailEnv.statuses "P" "R" fixPR1.pullRequestId = Except.error e) ∧
    timelineFailEnv.buildsByBranch "P" "R" fixPR1.sourceRefName =
      Except.ok [fixBranchBuild] ∧
    (enrichPullRequest timelineFailEnv "P" "R" fixPR1).builds = none ∧
    (enrichPullRequest timelineFailEnv "P" "R" fixPR1).builds ≠ some [fixBranchBuild] :=
  ⟨⟨⟨some 503⟩, rfl⟩, rfl, rfl, by decide⟩

/-- **C3** (amended): the build-discovery step never reaches the
builds-by-branch fallback, because the timeline request absorbs its own
HTTP failure and resolves with the empty object: the build request equals
the timeline request alone (independently of the branch endpoint), and on
a timeline failure the enriched pull request's `builds` is `undefined`
(or the record is the full default if threads also failed). -/
theorem builds_fallback_dead (env : RemoteEnv) (project repositoryId : String)
    (pr : PullRequest) :
    enricherBuildsReq env project repositoryId pr =
      Except.ok ⟨timelineBuildsOf env project repositoryId pr.pullRequestId⟩ ∧
    (∀ e, env.statuses project repositoryId pr.pullRequestId = Except.error e →
      (enrichPullRequest env project repositoryId pr).builds = none ∨
      enrichPullRequest env project repositoryId pr = defaultEnriched pr) := by
  refine ⟨enricherBuildsReq_eq env project repositoryId pr, ?_⟩
  intro e he
  rw [enrichPullRequest_eq]
  cases hts : env.threads project repositoryId pr.pullRequestId with
  | error e' => exact Or.inr rfl
  | ok ts =>
      left
      simp [enrichedWithThreads, timelineBuildsOf, he]

/-- **C3 witness**: at the concrete timeline-failure environment the
no-fallback theorem yields `builds = undefined`. -/
theorem builds_fallback_dead_witness :
    (enrichPullRequest timelineFailEnv "P" "R" fixPR1).builds = none ∨
    enrichPullRequest timelineFailEnv "P" "R" fixPR1 = defaultEnriched fixPR1 :=
  (builds_fallback_dead timelineFailEnv "P" "R" fixPR1).2 ⟨some 503⟩ rfl

/-- **C4 counterexample**: a successful enrichment whose thread list holds
one active, non-deleted thread with no comments yields
`unresolvedCommentCount = 1 > 0 = commentCount`, refuting the claimed
`unresolvedCommentCount <= commentCount`. -/
theorem counts_inequality_counterexample :
    (enrichPullRequest emptyActiveThreadEnv "P" "R" fixPR1).unresolvedCommentCount = some 1 ∧
    (enrichPullRequest emptyActiveThreadEnv "P" "R" fixPR1).commentCount = some 0 ∧
    ¬((1 : Nat) ≤ 0) :=
  ⟨rfl, rfl, by decide⟩

/-- **C4** (amended): on a successful enrichment, `commentCount` counts
exactly the non-deleted, non-system comments across all threads and
`unresolvedCommentCount` counts exactly the non-deleted threads with
status `"active"`; `unresolvedCommentCount <= commentCount` holds under
the extra assumption that every non-deleted active thread carries at
least one countable comment. -/
theorem enriched_counts_spec (env : RemoteEnv) (project repositoryId : String)
    (pr : PullRequest) (ts : List PullRequestThread)
    (hts : env.threads project repositoryId pr.pullRequestId = Except.ok ts)
    (_hs : ∃ evs, env.statuses project repositoryId pr.pullRequestId = Except.ok evs)
    (_hd : ∃ d, env.detail project repositoryId pr.pullRequestId = Except.ok d) :
    (enrichPullRequest env project repositoryId pr).commentCount =
      some ((ts.map fun t =>
        (t.comments.filter fun c => !c.isDeleted && c.commentType != "system").length).sum) ∧
    (enrichPullRequest env project repositoryId pr).unresolvedCommentCount =
      some ((ts.filter fun t => !t.isDeleted && t.status == "active").length) ∧
    ((∀ t ∈ ts, t.isDeleted = false → t.status = "active" →
        ∃ c ∈ t.comments, c.isDeleted = false ∧ c.commentType ≠ "system") →
      (ts.filter fun t => !t.isDeleted && t.status == "active").length ≤
        (ts.map fun t =>
          (t.comments.filter fun c => !c.isDeleted && c.commentType != "system").length).sum) := by
  have heq := enrichPullRequest_eq env project repositoryId pr
  rw [hts] at heq
  refine ⟨?_, ?_, ?_⟩
  · rw [heq]
    simp [enrichedWithThreads, commentCountOf_eq_sum]
  · rw [heq]
    simp [enrichedWithThreads, unresolvedCountOf]
  · intro hcond
    have h := unresolved_le_comment ts hcond
    rw [commentCountOf_eq_sum] at h
    exact h

/-- **C4 witness**: a concrete successful enrichment with one active
thread carrying one countable comment has both counts `1`, and the
inequality holds there. -/
theorem enriched_counts_spec_witness :
    (enrichPullRequest happyEnv "P" "R" fixPR1).commentCount = some 1 ∧
    (enrichPullRequest happyEnv "P" "R" fixPR1).unresolvedCommentCount = some 1 ∧
    ([fixThread].filter fun t => !t.isDeleted && t.status == "active").length ≤
      ([fixThread].map fun t =>
        (t.comments.filter fun c => !c.isDeleted && c.commentType != "system").length).sum := by
  have h := enriched_counts_spec happyEnv "P" "R" fixPR1 [fixThread] rfl
    ⟨[], rfl⟩ ⟨{ mergeStatus := some "succeeded", isDraft := some false }, rfl⟩
  exact ⟨by rw [h.1]; rfl, by rw [h.2.1]; rfl, h.2.2 (by decide)⟩

/-- **C5**: `handleHttpError` emits exactly one notification on the shared
error stream, chosen by status (401 the invalid/expired-credential
message, 403 the missing-scope message, absent/zero status the
network-error message, any other status a generic message carrying the
status), and resolves the failed call with the caller-supplied empty value
instead of propagating the error. -/
theorem handleHttpError_spec {α : Type} (emptyT : α) (e : HttpError) :
    (handleHttpError emptyT e).1 = [classifyHttpError e] ∧
    (handleHttpError emptyT e).1.length = 1 ∧
    (handleHttpError emptyT e).2 = Except.ok emptyT ∧
    (e.status = some 401 → classifyHttpError e = authInvalidMsg) ∧
    (e.status = some 403 → classifyHttpError e = authForbiddenMsg) ∧
    ((e.status = none ∨ e.status = some 0) → classifyHttpError e = networkErrorMsg) ∧
    (∀ n : Nat, e.status = some n → n ≠ 401 → n ≠ 403 → n ≠ 0 →
      classifyHttpError e = genericErrorMsg n) ∧
    (∀ n : Nat, genericErrorMsg n =
      "Error occurred while fetching data (" ++ toString n ++
        "). Please verify your Personal Access Token and configuration.") := by
  refine ⟨rfl, rfl, rfl, ?_, ?_, ?_, ?_, fun n => rfl⟩
  · intro h
    simp [classifyHttpError, h]
  · intro h
    simp [classifyHttpError, h]
  · rintro (h | h) <;> simp [classifyHttpError, h]
  · intro n hn h401 h403 h0
    simp [classifyHttpError, hn, h401, h403, h0]

/-- **C5 witness**: the four classifications at concrete statuses, and the
resolution with the empty value at one of them. -/
theorem handleHttpError_spec_witness :
    classifyHttpError ⟨some 401⟩ = authInvalidMsg ∧
    classifyHttpError ⟨some 403⟩ = authForbiddenMsg ∧
    classifyHttpError ⟨none⟩ = networkErrorMsg ∧
    classifyHttpError ⟨some 500⟩ = genericErrorMsg 500 ∧
    (handleHttpError (⟨none, none⟩ : PullRequestResponse) ⟨some 401⟩).2 =
      Except.ok ⟨none, none⟩ :=
  ⟨(handleHttpError_spec (⟨none, none⟩ : PullRequestResponse) ⟨some 401⟩).2.2.2.1 rfl,
   (handleHttpError_spec (⟨none, none⟩ : PullRequestResponse) ⟨some 403⟩).2.2.2.2.1 rfl,
   (handleHttpError_spec (⟨none, none⟩ : PullRequestResponse) ⟨none⟩).2.2.2.2.2.1 (Or.inl rfl),
   (handleHttpError_spec (⟨none, none⟩ : PullRequestResponse) ⟨some 500⟩).2.2.2.2.2.2.1
     500 rfl (by decide) (by decide) (by decide),
   (handleHttpError_spec (⟨none, none⟩ : PullRequestResponse) ⟨some 401⟩).2.2.1⟩

/-- **C7**: auto-pin seeding.  If the intersection of the pinned authors
with the author display names present in the fresh collection is non-empty
and nothing is selected, `selectedAuthors` becomes exactly that
intersection; a non-empty existing selection is never overridden. -/
theorem autoPinSeeding_spec (prs : List PullRequest) (pinned selected : Finset String) :
    (selected = ∅ → uniqueAuthors prs ∩ pinned ≠ ∅ →
      applyAutomaticPinnedAuthorFilters prs pinned selected = uniqueAuthors prs ∩ pinned) ∧
    (selected ≠ ∅ → applyAutomaticPinnedAuthorFilters prs pinned selected = selected) := by
  have hfi : ((uniqueAuthors prs).filter fun a => a ∈ pinned) = uniqueAuthors prs ∩ pinned :=
    Finset.filter_mem_eq_inter
  constructor
  · intro hsel hne
    subst hsel
    simp only [applyAutomaticPinnedAuthorFilters, hfi]
    rw [if_pos ⟨Finset.card_pos.mpr (Finset.nonempty_iff_ne_empty.mpr hne), Finset.card_empty⟩,
      Finset.empty_union]
  · intro hsel
    simp only [applyAutomaticPinnedAuthorFilters, hfi]
    rw [if_neg]
    rintro ⟨-, hcard⟩
    exact hsel (Finset.card_eq_zero.mp hcard)

/-- **C7 witness**: with pull requests by Alice and Bob and pinned set
`{Alice}`, an empty selection is seeded with `{Alice}` while an existing
`{Bob}` selection is kept. -/
theorem autoPinSeeding_spec_witness :
    applyAutomaticPinnedAuthorFilters [happyOut1, happyOut2] {"Alice"} ∅ =
      uniqueAuthors [happyOut1, happyOut2] ∩ {"Alice"} ∧
    applyAutomaticPinnedAuthorFilters [happyOut1, happyOut2] {"Alice"} {"Bob"} = {"Bob"} :=
  ⟨(autoPinSeeding_spec [happyOut1, happyOut2] {"Alice"} ∅).1 rfl (by decide),
   (autoPinSeeding_spec [happyOut1, happyOut2] {"Alice"} {"Bob"}).2 (by decide)⟩

theorem applyFilters_eq_filter (st : FilterState) (prs : List PullRequest) :
    applyFilters st prs = prs.filter (keepPR st) := by
  unfold applyFilters keepPR
  by_cases h1 : st.showDrafts <;>
    by_cases h2 : st.selectedRepositories.card = 0 <;>
      by_cases h3 : st.selectedAuthors.card = 0 <;>
        simp [h1, h2, h3, Nat.pos_of_ne_zero, List.filter_filter, decide_eq_false,
          Bool.and_comm, Bool.and_assoc, Bool.and_left_comm]

/-- **C8**: view-filter idempotence — applying `applyFilters` to its own
output under the same filter state gives the same result as applying it
once. -/
theorem applyFilters_idempotent (st : FilterState) (prs : List PullRequest) :
    applyFilters st (applyFilters st prs) = applyFilters st prs := by
  rw [applyFilters_eq_filter, applyFilters_eq_filter, List.filter_filter]
  exact List.filter_congr fun a _ => by cases h : keepPR st a <;> simp [h]

theorem ite_filter_sublist {α : Type} (c : Prop) [Decidable c] (p : α → Bool) (l : List α) :
    (if c then l.filter p else l).Sublist l := by
  split
  · exact List.filter_sublist l
  · exact List.Sublist.refl l

/-- **C10**: the filtered view is a subsequence of the full collection —
every output element occurs in the input, relative order is preserved, and
no element occurs more often than in the input. -/
theorem applyFilters_sublist (st : FilterState) (prs : List PullRequest) :
    (applyFilters st prs).Sublist prs ∧
    ∀ pr : PullRequest, (applyFilters st prs).count pr ≤ prs.count pr := by
  have h : (applyFilters st prs).Sublist prs := by
    unfold applyFilters
    exact (ite_filter_sublist _ _ _).trans
      ((ite_filter_sublist _ _ _).trans (ite_filter_sublist _ _ _))
  exact ⟨h, fun pr => h.count_le pr⟩

theorem mem_relatedCandidates {pr : PullRequest} {prs : List PullRequest}
    {o : PullRequest} {s : Nat} :
    (o, s) ∈ relatedCandidates pr prs ↔
      o ∈ prs ∧ o.pullRequestId ≠ pr.pullRequestId ∧
      s = relatednessScore pr o ∧ 30 ≤ s := by
  unfold relatedCandidates
  rw [List.mem_filterMap]
  constructor
  · rintro ⟨o', ho', hx⟩
    by_cases h1 : o'.pullRequestId = pr.pullRequestId
    · simp [h1] at hx
    · by_cases h2 : 30 ≤ relatednessScore pr o'
      · simp only [h1, if_false, if_neg h1, if_pos h2] at hx
        injection hx with hx
        obtain ⟨rfl, rfl⟩ := Prod.mk.injEq .. |>.mp hx
        exact ⟨ho', h1, rfl, h2⟩
      · simp [h1, h2] at hx
  · rintro ⟨ho, hne, rfl, h30⟩
    refine ⟨o, ho, ?_⟩
    rw [if_neg hne]
    show (if 30 ≤ relatednessScore pr o then some (o, relatednessScore pr o) else none) = _
    rw [if_pos h30]

/-- **C9**: `getRelatedPullRequests` keeps only other pull requests
(different id) whose score reaches 30 and returns at most one result, a
candidate of maximal score among all other pull requests; it returns a
result whenever some other pull request reaches the threshold.  (The
score itself, `relatednessScore`, adds one of 50 / 15 / 10 for
repository-author overlap plus 20 for the shared-significant-words test.)
-/
theorem getRelatedPullRequests_spec (pr : PullRequest) (prs : List PullRequest) :
    (getRelatedPullRequests pr prs).length ≤ 1 ∧
    (∀ c ∈ getRelatedPullRequests pr prs,
      c ∈ prs ∧ c.pullRequestId ≠ pr.pullRequestId ∧ 30 ≤ relatednessScore pr c ∧
      ∀ o ∈ prs, o.pullRequestId ≠ pr.pullRequestId →
        relatednessScore pr o ≤ relatednessScore pr c) ∧
    ((∃ o ∈ prs, o.pullRequestId ≠ pr.pullRequestId ∧ 30 ≤ relatednessScore pr o) →
      getRelatedPullRequests pr prs ≠ []) := by
  by_cases hempty : prs.length = 0
  · have hnil : prs = [] := List.length_eq_zero.mp hempty
    subst hnil
    refine ⟨by simp [getRelatedPullRequests], by simp [getRelatedPullRequests], ?_⟩
    rintro ⟨o, ho, -⟩
    cases ho
  · by_cases hc0 : (relatedCandidates pr prs).length = 0
    · have hres : getRelatedPullRequests pr prs = [] := by
        unfold getRelatedPullRequests
        rw [if_neg hempty, if_pos hc0]
      refine ⟨by simp [hres], by simp [hres], ?_⟩
      rintro ⟨o, ho, hne, h30⟩
      have hmem : (o, relatednessScore pr o) ∈ relatedCandidates pr prs :=
        mem_relatedCandidates.mpr ⟨ho, hne, rfl, h30⟩
      rw [List.length_eq_zero.mp hc0] at hmem
      cases hmem
    · have hperm : ((relatedCandidates pr prs).mergeSort
          fun x y => decide (y.2 ≤ x.2)).Perm (relatedCandidates pr prs) :=
        List.mergeSort_perm (relatedCandidates pr prs) _
      have hsorted : List.Pairwise (fun x y : PullRequest × Nat => decide (y.2 ≤ x.2) = true)
          ((relatedCandidates pr prs).mergeSort fun x y => decide (y.2 ≤ x.2)) :=
        List.sorted_mergeSort
          (fun a b c hab hbc => by
            simp only [decide_eq_true_eq] at *
            omega)
          (fun a b => by
            rcases Nat.le_total b.2 a.2 with h | h <;> simp [h])
          (relatedCandidates pr prs)
      cases hms : (relatedCandidates pr prs).mergeSort fun x y => decide (y.2 ≤ x.2) with
      | nil =>
          exfalso
          have hlen := hperm.length_eq
          rw [hms] at hlen
          exact hc0 hlen.symm
      | cons c rest =>
          rw [hms] at hperm hsorted
          have hres : getRelatedPullRequests pr prs = [c.1] := by
            unfold getRelatedPullRequests
            rw [if_neg hempty, if_neg hc0, hms]
          have hcmem : c ∈ relatedCandidates pr prs :=
            hperm.subset (List.mem_cons_self _ _)
          have hcprops := mem_relatedCandidates.mp (by
            have : ((c.1, c.2) : PullRequest × Nat) = c := rfl
            rw [this]
            exact hcmem)
          obtain ⟨hcin, hcne, hcscore, hc30⟩ := hcprops
          have hmax : ∀ o ∈ prs, o.pullRequestId ≠ pr.pullRequestId →
              relatednessScore pr o ≤ relatednessScore pr c.1 := by
            intro o ho hne
            by_cases h30 : 30 ≤ relatednessScore pr o
            · have hocand : (o, relatednessScore pr o) ∈ relatedCandidates pr prs :=
                mem_relatedCandidates.mpr ⟨ho, hne, rfl, h30⟩
              have hosort : (o, relatednessScore pr o) ∈ c :: rest :=
                (hperm.mem_iff).mpr hocand
              rcases List.mem_cons.mp hosort with heq | htail
              · rw [← hcscore, ← heq]
              · have hle := (List.pairwise_cons.mp hsorted).1 _ htail
                rw [decide_eq_true_eq] at hle
                rw [← hcscore]
                exact hle
            · rw [← hcscore]
              omega
          refine ⟨by simp [hres], ?_, by simp [hres]⟩
          intro x hx
          rw [hres] at hx
          rcases List.mem_cons.mp hx with rfl | hx'
          · exact ⟨hcin, hcne, hcscore ▸ hc30, hmax⟩
          · cases hx'

/-- **C9 witness**: a second pull request in the same repository by the
same author scores at least 50, so a related pull request is returned. -/
theorem getRelatedPullRequests_spec_witness :
    getRelatedPullRequests fixPR1 [fixPR1, fixPR3] ≠ [] := by
  apply (getRelatedPullRequests_spec fixPR1 [fixPR1, fixPR3]).2.2
  refine ⟨fixPR3, List.mem_cons_of_mem _ (List.mem_cons_self _ _), by decide, ?_⟩
  have hbase : relatednessScore fixPR1 fixPR3 =
      50 + (if sharedTitleBonus fixPR1.title fixPR3.title then 20 else 0) := rfl
  rw [hbase]
  split <;> omega

end PRApp
